import Mathlib

/-!
Shallow embedding of `src/stellar/perception/sensors.py` (StellarAI).

The module reads framed UART messages from a tinyK22 microcontroller,
reassembles the fragmented payload (`combine_messages`), decodes the
payload buffer with a `struct` format string (`decode_blob`), and a
`Sensors` poller orchestrates read → decode → enqueue.

Bytes are modelled as `Nat` (meaningful values are < 256).  `struct`
format strings are restricted to the standard-size, no-alignment forms
actually used by the module (`=` prefix followed by `x`, `f`, `i`
characters); native byte order is taken to be little-endian, as on the
platforms the system runs on.  A `float32` scalar is modelled by its
4-byte bit pattern (struct.pack/unpack move float bits verbatim), an
`int32` by its mathematical value in `[-2^31, 2^31)`.
-/

namespace StellarAI

abbrev Byte := Nat

/-- One scalar field of a struct format string: `x` (pad byte), `f`
(float32) or `i` (int32). -/
inductive FieldType
  | pad
  | f32
  | i32
  deriving DecidableEq, Repr

/-- Standard size of one field, as `struct` with a `=` prefix uses:
pad bytes are 1 byte, `f` and `i` are 4 bytes. -/
def fieldSize : FieldType → Nat
  | .pad => 1
  | .f32 => 4
  | .i32 => 4

/-- `struct.calcsize` for a parsed format: the sum of the field sizes
(no alignment padding under the `=` prefix). -/
def calcsize (fields : List FieldType) : Nat :=
  (fields.map fieldSize).sum

/-- Parse the characters after the `=` prefix of a format string.
Any character other than `x`, `f`, `i` is a bad format character
(`struct.error` in Python). -/
def parseFmtChars : List Char → Option (List FieldType)
  | [] => some []
  | c :: rest =>
    if c = 'x' then (parseFmtChars rest).map (fun fs => FieldType.pad :: fs)
    else if c = 'f' then (parseFmtChars rest).map (fun fs => FieldType.f32 :: fs)
    else if c = 'i' then (parseFmtChars rest).map (fun fs => FieldType.i32 :: fs)
    else none

/-- Parse a `struct` format string of the shape the module uses:
a `=` byte-order prefix (standard sizes, no alignment) followed by
field characters. -/
def parseFmt (fmt : String) : Option (List FieldType) :=
  match fmt.data with
  | '=' :: rest => parseFmtChars rest
  | _ => none

/-- A decoded scalar value: a float32 carried as its 4-byte bit
pattern in buffer order, or an int32 carried as its value. -/
inductive Value
  | f32 (b0 b1 b2 b3 : Byte)
  | i32 (n : Int)
  deriving DecidableEq, Repr

/-- The unsigned 32-bit word with little-endian bytes `b0 b1 b2 b3`. -/
def leWord (b0 b1 b2 b3 : Byte) : Nat :=
  b0 + 256 * b1 + 65536 * b2 + 16777216 * b3

/-- Reinterpret an unsigned 32-bit word as a signed int32. -/
def toSigned32 (u : Nat) : Int :=
  if u < 2147483648 then (u : Int) else (u : Int) - 4294967296

/-- `struct.unpack` over a parsed format: consume the buffer field by
field (pads consume one byte and yield nothing, `f`/`i` consume four
bytes and yield a scalar); succeeds only if the buffer is consumed
exactly. -/
def unpackFields : List FieldType → List Byte → Option (List Value)
  | [], [] => some []
  | .pad :: rest, _b :: bs => unpackFields rest bs
  | .f32 :: rest, b0 :: b1 :: b2 :: b3 :: bs =>
    (unpackFields rest bs).map (fun vs => Value.f32 b0 b1 b2 b3 :: vs)
  | .i32 :: rest, b0 :: b1 :: b2 :: b3 :: bs =>
    (unpackFields rest bs).map (fun vs => Value.i32 (toSigned32 (leWord b0 b1 b2 b3)) :: vs)
  | _, _ => none

/-- `struct.unpack(fmt, blob)`: `none` models `struct.error` (bad
format character or buffer length mismatch). -/
def struct_unpack (fmt : String) (blob : List Byte) : Option (List Value) :=
  (parseFmt fmt).bind (fun fields => unpackFields fields blob)

/-- Lowercase hex digit of `n < 16`, as `binascii.hexlify` writes it. -/
def hexDigit (n : Nat) : Char :=
  if n < 10 then Char.ofNat (48 + n) else Char.ofNat (87 + n)

/-- `binascii.hexlify(bytearray(blob))`: two lowercase hex digits per
byte, in order. -/
def hexlify (bs : List Byte) : String :=
  String.mk ((bs.map (fun b => [hexDigit (b / 16), hexDigit (b % 16)])).flatten)

/-- The `ValueError` raised by `decode_blob`, carrying the offending
buffer hex-rendered. -/
inductive DecodeError
  | valueError (hexBlob : String)
  deriving DecidableEq, Repr

/-- `decode_blob(blob, fmt="=ffffii")`: `struct.unpack`, with a
`struct.error` re-raised as a `ValueError` carrying the hexlified
buffer. -/
def decode_blob (blob : List Byte) (fmt : String := "=ffffii") : Except DecodeError (List Value) :=
  match struct_unpack fmt blob with
  | some values => Except.ok values
  | none => Except.error (DecodeError.valueError (hexlify blob))

/-- The `IndexError` raised by `blob[-1]` on an empty chunk in
`combine_messages`. -/
inductive UartError
  | indexError
  deriving DecidableEq, Repr

/-- `blob[1:9]`: the (up to 8) payload bytes of one UART chunk. -/
def payloadOf (blob : List Byte) : List Byte :=
  (blob.drop 1).take 8

/-- `combine_messages(blobs)`: append each chunk's `blob[1:9]` to the
buffer; stop right after the first chunk whose last byte (`blob[-1]`)
is the stop sentinel `0x01`.  `blob[-1]` on an empty chunk raises
`IndexError`. -/
def combine_messages : List (List Byte) → Except UartError (List Byte)
  | [] => Except.ok []
  | blob :: rest =>
    match blob.getLast? with
    | none => Except.error UartError.indexError
    | some stop_bit =>
      if stop_bit = 1 then Except.ok (payloadOf blob)
      else
        match combine_messages rest with
        | Except.ok buf => Except.ok (payloadOf blob ++ buf)
        | Except.error e => Except.error e

/-- The `Sensors` poller state: the device models the pending bytes its
`io.BytesIO`-style transport returns on the next `read()`, the outbound
queue holds the decoded tuples in FIFO order. -/
structure Sensors where
  device : List Byte
  out_queue : List (List Value)
  fmt : String
  deriving DecidableEq, Repr

/-- `Sensors.__init__(device, out_queue, fmt="=xffffiix")`. -/
def Sensors.init (device : List Byte) (out_queue : List (List Value))
    (fmt : String := "=xffffiix") : Sensors :=
  { device := device, out_queue := out_queue, fmt := fmt }

/-- `Sensors.read()`: read one burst from the device (consuming it);
if it is empty do nothing, else decode it with the poller's format and
enqueue the tuple.  A decode error propagates (second component) and
leaves the queue untouched. -/
def Sensors.read (s : Sensors) : Sensors × Option DecodeError :=
  let blob := s.device
  let s1 := { s with device := ([] : List Byte) }
  if blob.isEmpty then (s1, none)
  else
    match decode_blob blob s.fmt with
    | Except.ok values => ({ s1 with out_queue := s.out_queue ++ [values] }, none)
    | Except.error e => (s1, some e)

/-- The little-endian bytes of an unsigned 32-bit word. -/
def encodeLE32 (u : Nat) : List Byte :=
  [u % 256, u / 256 % 256, u / 65536 % 256, u / 16777216 % 256]

/-- The byte image of one scalar under standard-size packing: a float32
is its 4-byte bit pattern, an int32 its little-endian two's-complement
bytes. -/
def Value.bytes : Value → List Byte
  | .f32 b0 b1 b2 b3 => [b0, b1, b2, b3]
  | .i32 n => encodeLE32 (n % 4294967296).toNat

/-- A scalar the layout's type can represent: float32 bit-pattern
bytes are bytes, an int32 lies in `[-2^31, 2^31)`. -/
def Value.representable : Value → Prop
  | .f32 b0 b1 b2 b3 => b0 < 256 ∧ b1 < 256 ∧ b2 < 256 ∧ b3 < 256
  | .i32 n => -2147483648 ≤ n ∧ n < 2147483648

instance : DecidablePred Value.representable := by
  intro v; cases v <;> simp [Value.representable] <;> infer_instance

/-- Modelled from the spec: the transmitting firmware's encoder
(`struct.pack`-style), which the repository does not contain.  It lays
the scalars out per the layout descriptor, one field at a time, in
declaration order, writing a zero byte for each pad field — the inverse
of the unpack step of `decode_blob`. -/
def packFields : List FieldType → List Value → Option (List Byte)
  | [], [] => some []
  | .pad :: rest, vs => (packFields rest vs).map (fun bs => 0 :: bs)
  | .f32 :: rest, Value.f32 b0 b1 b2 b3 :: vs =>
    (packFields rest vs).map (fun bs => b0 :: b1 :: b2 :: b3 :: bs)
  | .i32 :: rest, Value.i32 n :: vs =>
    (packFields rest vs).map (fun bs => (Value.i32 n).bytes ++ bs)
  | _, _ => none

/-! ### Helper lemmas -/

theorem calcsize_cons (f : FieldType) (rest : List FieldType) :
    calcsize (f :: rest) = fieldSize f + calcsize rest := by
  simp [calcsize]

theorem calcsize_pos {fields : List FieldType} (h : fields ≠ []) :
    0 < calcsize fields := by
  cases fields with
  | nil => exact absurd rfl h
  | cons f rest => cases f <;> simp [calcsize_cons, fieldSize]

/-- A successful unpack consumed the buffer exactly: its length is the
format's `calcsize`. -/
theorem unpackFields_length {fields : List FieldType} :
    ∀ {blob : List Byte} {vs : List Value},
      unpackFields fields blob = some vs → blob.length = calcsize fields := by
  induction fields with
  | nil =>
    intro blob vs h
    cases blob with
    | nil => simp [calcsize]
    | cons b bs => simp [unpackFields] at h
  | cons f rest ih =>
    intro blob vs h
    cases f with
    | pad =>
      cases blob with
      | nil => simp [unpackFields] at h
      | cons b bs =>
        have hb : unpackFields rest bs = some vs := h
        have := ih hb
        simp [calcsize_cons, fieldSize, this]
        omega
    | f32 =>
      cases blob with
      | nil => simp [unpackFields] at h
      | cons b0 t0 => cases t0 with
        | nil => simp [unpackFields] at h
        | cons b1 t1 => cases t1 with
          | nil => simp [unpackFields] at h
          | cons b2 t2 => cases t2 with
            | nil => simp [unpackFields] at h
            | cons b3 bs =>
              rw [unpackFields, Option.map_eq_some'] at h
              obtain ⟨ws, hw, -⟩ := h
              have := ih hw
              simp [calcsize_cons, fieldSize, this]
              omega
    | i32 =>
      cases blob with
      | nil => simp [unpackFields] at h
      | cons b0 t0 => cases t0 with
        | nil => simp [unpackFields] at h
        | cons b1 t1 => cases t1 with
          | nil => simp [unpackFields] at h
          | cons b2 t2 => cases t2 with
            | nil => simp [unpackFields] at h
            | cons b3 bs =>
              rw [unpackFields, Option.map_eq_some'] at h
              obtain ⟨ws, hw, -⟩ := h
              have := ih hw
              simp [calcsize_cons, fieldSize, this]
              omega

/-- Unpack succeeds on every buffer of exactly the format's
`calcsize` bytes. -/
theorem unpackFields_total {fields : List FieldType} :
    ∀ {blob : List Byte}, blob.length = calcsize fields →
      ∃ vs, unpackFields fields blob = some vs := by
  induction fields with
  | nil =>
    intro blob h
    cases blob with
    | nil => exact ⟨[], rfl⟩
    | cons b bs => simp [calcsize] at h
  | cons f rest ih =>
    intro blob h
    cases f with
    | pad =>
      cases blob with
      | nil => simp [calcsize_cons, fieldSize] at h; omega
      | cons b bs =>
        have hb : bs.length = calcsize rest := by
          simp [calcsize_cons, fieldSize] at h
          omega
        obtain ⟨vs, hvs⟩ := ih hb
        exact ⟨vs, hvs⟩
    | f32 =>
      rw [calcsize_cons] at h
      cases blob with
      | nil => simp [fieldSize] at h; omega
      | cons b0 t0 => cases t0 with
        | nil => simp [fieldSize] at h; omega
        | cons b1 t1 => cases t1 with
          | nil => simp [fieldSize] at h; omega
          | cons b2 t2 => cases t2 with
            | nil => simp [fieldSize] at h; omega
            | cons b3 bs =>
              have hb : bs.length = calcsize rest := by
                simp [fieldSize] at h
                omega
              obtain ⟨vs, hvs⟩ := ih hb
              exact ⟨_, by rw [unpackFields, hvs]; rfl⟩
    | i32 =>
      rw [calcsize_cons] at h
      cases blob with
      | nil => simp [fieldSize] at h; omega
      | cons b0 t0 => cases t0 with
        | nil => simp [fieldSize] at h; omega
        | cons b1 t1 => cases t1 with
          | nil => simp [fieldSize] at h; omega
          | cons b2 t2 => cases t2 with
            | nil => simp [fieldSize] at h; omega
            | cons b3 bs =>
              have hb : bs.length = calcsize rest := by
                simp [fieldSize] at h
                omega
              obtain ⟨vs, hvs⟩ := ih hb
              exact ⟨_, by rw [unpackFields, hvs]; rfl⟩

/-- A successful pack produces exactly `calcsize` bytes. -/
theorem packFields_length {fields : List FieldType} :
    ∀ {values : List Value} {bs : List Byte},
      packFields fields values = some bs → bs.length = calcsize fields := by
  induction fields with
  | nil =>
    intro values bs h
    cases values with
    | nil => cases h; simp [calcsize]
    | cons v vs => simp [packFields] at h
  | cons f rest ih =>
    intro values bs h
    cases f with
    | pad =>
      rw [packFields, Option.map_eq_some'] at h
      obtain ⟨cs, hcs, rfl⟩ := h
      simp [calcsize_cons, fieldSize, ih hcs]
      omega
    | f32 =>
      cases values with
      | nil => simp [packFields] at h
      | cons v vs =>
        cases v with
        | i32 n => simp [packFields] at h
        | f32 b0 b1 b2 b3 =>
          rw [packFields, Option.map_eq_some'] at h
          obtain ⟨cs, hcs, rfl⟩ := h
          simp [calcsize_cons, fieldSize, ih hcs]
          omega
    | i32 =>
      cases values with
      | nil => simp [packFields] at h
      | cons v vs =>
        cases v with
        | f32 b0 b1 b2 b3 => simp [packFields] at h
        | i32 n =>
          rw [packFields, Option.map_eq_some'] at h
          obtain ⟨cs, hcs, rfl⟩ := h
          simp [calcsize_cons, fieldSize, Value.bytes, encodeLE32, ih hcs]
          omega

theorem leWord_encode {u : Nat} (h : u < 4294967296) :
    leWord (u % 256) (u / 256 % 256) (u / 65536 % 256) (u / 16777216 % 256) = u := by
  unfold leWord
  omega

theorem toSigned32_emod {n : Int} (h1 : -2147483648 ≤ n) (h2 : n < 2147483648) :
    toSigned32 (n % 4294967296).toNat = n := by
  unfold toSigned32
  split <;> omega

/-- Unpacking a packed buffer recovers the values: the binary layout
round-trips for every scalar the layout's types can represent. -/
theorem unpackFields_packFields {fields : List FieldType} :
    ∀ {values : List Value} {bs : List Byte},
      (∀ v ∈ values, v.representable) → packFields fields values = some bs →
      unpackFields fields bs = some values := by
  induction fields with
  | nil =>
    intro values bs hrep h
    cases values with
    | nil => cases h; rfl
    | cons v vs => simp [packFields] at h
  | cons f rest ih =>
    intro values bs hrep h
    cases f with
    | pad =>
      rw [packFields, Option.map_eq_some'] at h
      obtain ⟨cs, hcs, rfl⟩ := h
      simpa [unpackFields] using ih hrep hcs
    | f32 =>
      cases values with
      | nil => simp [packFields] at h
      | cons v vs =>
        cases v with
        | i32 n => simp [packFields] at h
        | f32 b0 b1 b2 b3 =>
          rw [packFields, Option.map_eq_some'] at h
          obtain ⟨cs, hcs, rfl⟩ := h
          have := ih (fun v hv => hrep v (List.mem_cons_of_mem _ hv)) hcs
          rw [unpackFields, this]
          rfl
    | i32 =>
      cases values with
      | nil => simp [packFields] at h
      | cons v vs =>
        cases v with
        | f32 b0 b1 b2 b3 => simp [packFields] at h
        | i32 n =>
          rw [packFields, Option.map_eq_some'] at h
          obtain ⟨cs, hcs, rfl⟩ := h
          have hu := ih (fun v hv => hrep v (List.mem_cons_of_mem _ hv)) hcs
          obtain ⟨hlo, hhi⟩ := hrep (Value.i32 n) (List.mem_cons_self _ _)
          have hub : (n % 4294967296).toNat < 4294967296 := by omega
          simp [Value.bytes, encodeLE32, unpackFields, hu,
            leWord_encode hub, toSigned32_emod hlo hhi]

/-- `combine_messages` on chunks that are nonempty and never carry the
stop sentinel consumes all of them and concatenates their payloads. -/
theorem combine_messages_no_stop {blobs : List (List Byte)}
    (h : ∀ b ∈ blobs, b ≠ [] ∧ b.getLast? ≠ some 1) :
    combine_messages blobs = Except.ok ((blobs.map payloadOf).flatten) := by
  induction blobs with
  | nil => rfl
  | cons blob rest ih =>
    obtain ⟨hne, hstop⟩ := h blob (List.mem_cons_self _ _)
    cases hg : blob.getLast? with
    | none => exact absurd (List.getLast?_eq_none_iff.mp hg) hne
    | some t =>
      have ht : ¬(t = 1) := fun h1 => hstop (h1 ▸ hg)
      have hrest := ih (fun b hb => h b (List.mem_cons_of_mem _ hb))
      simp [combine_messages, hg, ht, hrest]

/-- `combine_messages` stops at the first stop-sentinel chunk: the
preceding chunks' payloads and that chunk's payload make up the result,
whatever follows. -/
theorem combine_messages_stops {stop : List Byte} (hstop : stop.getLast? = some 1) :
    ∀ (pre post : List (List Byte)), (∀ b ∈ pre, b ≠ [] ∧ b.getLast? ≠ some 1) →
      combine_messages (pre ++ stop :: post) =
        Except.ok ((pre.map payloadOf).flatten ++ payloadOf stop) := by
  intro pre
  induction pre with
  | nil =>
    intro post hpre
    simp [combine_messages, hstop]
  | cons blob rest ih =>
    intro post hpre
    obtain ⟨hne, hs⟩ := hpre blob (List.mem_cons_self _ _)
    cases hg : blob.getLast? with
    | none => exact absurd (List.getLast?_eq_none_iff.mp hg) hne
    | some t =>
      have ht : ¬(t = 1) := fun h1 => hs (h1 ▸ hg)
      have hrest := ih post (fun b hb => hpre b (List.mem_cons_of_mem _ hb))
      simp [combine_messages, hg, ht, hrest]

/-- A zero-length chunk before any stop-sentinel chunk makes
`combine_messages` fail with `IndexError`. -/
theorem combine_messages_empty_chunk :
    ∀ (pre : List (List Byte)), (∀ b ∈ pre, b ≠ [] ∧ b.getLast? ≠ some 1) →
      ∀ (post : List (List Byte)),
        combine_messages (pre ++ [] :: post) = Except.error UartError.indexError := by
  intro pre
  induction pre with
  | nil =>
    intro _ post
    rfl
  | cons blob rest ih =>
    intro hpre post
    obtain ⟨hne, hs⟩ := hpre blob (List.mem_cons_self _ _)
    cases hg : blob.getLast? with
    | none => exact absurd (List.getLast?_eq_none_iff.mp hg) hne
    | some t =>
      have ht : ¬(t = 1) := fun h1 => hs (h1 ▸ hg)
      have hrest := ih (fun b hb => hpre b (List.mem_cons_of_mem _ hb)) post
      simp [combine_messages, hg, ht, hrest]

/-- `combine_messages` never fails on nonempty chunks. -/
theorem combine_messages_ok_of_nonempty {blobs : List (List Byte)}
    (h : ∀ b ∈ blobs, b ≠ []) : ∃ r, combine_messages blobs = Except.ok r := by
  induction blobs with
  | nil => exact ⟨[], rfl⟩
  | cons blob rest ih =>
    have hne := h blob (List.mem_cons_self _ _)
    cases hg : blob.getLast? with
    | none => exact absurd (List.getLast?_eq_none_iff.mp hg) hne
    | some t =>
      by_cases ht : t = 1
      · exact ⟨payloadOf blob, by simp [combine_messages, hg, ht]⟩
      · obtain ⟨r, hr⟩ := ih (fun b hb => h b (List.mem_cons_of_mem _ hb))
        exact ⟨payloadOf blob ++ r, by simp [combine_messages, hg, ht, hr]⟩

/-- A 10-byte chunk contributes exactly its 8 payload bytes. -/
theorem payloadOf_length {b : List Byte} (h : b.length = 10) :
    (payloadOf b).length = 8 := by
  simp [payloadOf, h]

theorem flatten_payload_length {blobs : List (List Byte)}
    (h : ∀ b ∈ blobs, b.length = 10) :
    ((blobs.map payloadOf).flatten).length = 8 * blobs.length := by
  induction blobs with
  | nil => simp
  | cons blob rest ih =>
    have h1 := payloadOf_length (h blob (List.mem_cons_self _ _))
    have h2 := ih (fun b hb => h b (List.mem_cons_of_mem _ hb))
    simp [h1, h2]
    ring

/-- `decode_blob` succeeds on every buffer of exactly the layout's
byte length. -/
theorem decode_blob_ok_of_length {fmt : String} {fields : List FieldType} {blob : List Byte}
    (hfmt : parseFmt fmt = some fields) (hlen : blob.length = calcsize fields) :
    ∃ vs, decode_blob blob fmt = Except.ok vs := by
  obtain ⟨vs, hvs⟩ := unpackFields_total hlen
  exact ⟨vs, by rw [decode_blob, struct_unpack, hfmt, Option.some_bind, hvs]⟩

/-- `decode_blob` fails, carrying the hexlified buffer, on every buffer
whose length differs from the layout's byte length. -/
theorem decode_blob_error_of_length_ne {fmt : String} {fields : List FieldType}
    {blob : List Byte} (hfmt : parseFmt fmt = some fields)
    (hlen : blob.length ≠ calcsize fields) :
    decode_blob blob fmt = Except.error (DecodeError.valueError (hexlify blob)) := by
  cases hu : unpackFields fields blob with
  | none => rw [decode_blob, struct_unpack, hfmt, Option.some_bind, hu]
  | some ws => exact absurd (unpackFields_length hu) hlen

/-! ### Claim theorems -/

/-- C1: for every non-empty sequence of 10-byte frames in which the stop
sentinel `0x01` first appears as the trailer byte of frame `k` of `n`
(`k < n` included), `combine_messages` returns exactly the concatenation
of the 8 payload bytes (offsets 1..8) of frames `1..k` in order — a
buffer of `8 * k` bytes — and the remaining frames contribute nothing to
the result. -/
theorem combine_messages_stop_sentinel_precedence
    (pre post : List (List Byte)) (stop : List Byte)
    (hpre_len : ∀ b ∈ pre, b.length = 10)
    (hpre_stop : ∀ b ∈ pre, b.getLast? ≠ some 1)
    (hstop_len : stop.length = 10)
    (hstop : stop.getLast? = some 1) :
    combine_messages (pre ++ stop :: post) =
      Except.ok ((pre.map payloadOf).flatten ++ payloadOf stop) ∧
    ((pre.map payloadOf).flatten ++ payloadOf stop).length = 8 * (pre.length + 1) := by
  have hpre : ∀ b ∈ pre, b ≠ [] ∧ b.getLast? ≠ some 1 := by
    intro b hb
    refine ⟨?_, hpre_stop b hb⟩
    have hlb := hpre_len b hb
    intro hnil
    rw [hnil] at hlb
    simp at hlb
  refine ⟨combine_messages_stops hstop pre post hpre, ?_⟩
  simp [flatten_payload_length hpre_len, payloadOf_length hstop_len]
  ring

theorem combine_messages_stop_sentinel_precedence_witness :
    combine_messages
        [[2, 0, 1, 2, 3, 4, 5, 6, 7, 0], [2, 8, 9, 10, 11, 12, 13, 14, 15, 1],
          [9, 9, 9, 9, 9, 9, 9, 9, 9, 9]] =
      Except.ok [0, 1, 2, 3, 4, 5, 6, 7, 8, 9, 10, 11, 12, 13, 14, 15] ∧
    ([0, 1, 2, 3, 4, 5, 6, 7, 8, 9, 10, 11, 12, 13, 14, 15] : List Byte).length = 8 * 2 := by
  have h := combine_messages_stop_sentinel_precedence
    [[2, 0, 1, 2, 3, 4, 5, 6, 7, 0]] [[9, 9, 9, 9, 9, 9, 9, 9, 9, 9]]
    [2, 8, 9, 10, 11, 12, 13, 14, 15, 1]
    (by decide) (by decide) (by decide) (by decide)
  exact ⟨h.1, by decide⟩

/-- C5: for every sequence of 10-byte frames none of which carries the
stop sentinel as its trailer, `combine_messages` consumes all of them
and returns the concatenation of all frames' 8 payload bytes, without
any error; in particular the empty sequence yields the empty buffer. -/
theorem combine_messages_unterminated
    (blobs : List (List Byte))
    (hlen : ∀ b ∈ blobs, b.length = 10)
    (hstop : ∀ b ∈ blobs, b.getLast? ≠ some 1) :
    combine_messages blobs = Except.ok ((blobs.map payloadOf).flatten) ∧
    ((blobs.map payloadOf).flatten).length = 8 * blobs.length ∧
    combine_messages [] = Except.ok [] := by
  have h : ∀ b ∈ blobs, b ≠ [] ∧ b.getLast? ≠ some 1 := by
    intro b hb
    refine ⟨?_, hstop b hb⟩
    have hlb := hlen b hb
    intro hnil
    rw [hnil] at hlb
    simp at hlb
  exact ⟨combine_messages_no_stop h, flatten_payload_length hlen, rfl⟩

theorem combine_messages_unterminated_witness :
    combine_messages [[2, 0, 1, 2, 3, 4, 5, 6, 7, 0], [2, 8, 9, 10, 11, 12, 13, 14, 15, 0]] =
      Except.ok [0, 1, 2, 3, 4, 5, 6, 7, 8, 9, 10, 11, 12, 13, 14, 15] ∧
    ([0, 1, 2, 3, 4, 5, 6, 7, 8, 9, 10, 11, 12, 13, 14, 15] : List Byte).length = 8 * 2 ∧
    combine_messages [] = Except.ok [] := by
  have h := combine_messages_unterminated
    [[2, 0, 1, 2, 3, 4, 5, 6, 7, 0], [2, 8, 9, 10, 11, 12, 13, 14, 15, 0]]
    (by decide) (by decide)
  exact ⟨h.1, by decide, rfl⟩

/-- C2: against a parsed layout, `decode_blob` succeeds (returns a tuple
of one scalar per non-pad field, no error) exactly when the buffer's
total byte length equals the layout's total declared byte length —
regardless of the buffer's internal field arrangement. -/
theorem decode_blob_succeeds_iff_length_matches
    (fmt : String) (fields : List FieldType) (blob : List Byte)
    (hfmt : parseFmt fmt = some fields) :
    (∃ vs, decode_blob blob fmt = Except.ok vs) ↔ blob.length = calcsize fields := by
  constructor
  · rintro ⟨vs, hvs⟩
    rw [decode_blob] at hvs
    cases hu : struct_unpack fmt blob with
    | none => rw [hu] at hvs; exact absurd hvs (by simp)
    | some ws =>
      rw [struct_unpack, hfmt, Option.some_bind] at hu
      exact unpackFields_length hu
  · intro hlen
    obtain ⟨vs, hvs⟩ := unpackFields_total hlen
    refine ⟨vs, ?_⟩
    rw [decode_blob, struct_unpack, hfmt, Option.some_bind, hvs]

theorem decode_blob_succeeds_iff_length_matches_witness :
    ∃ vs, decode_blob (List.replicate 24 0) "=ffffii" = Except.ok vs :=
  (decode_blob_succeeds_iff_length_matches "=ffffii"
    [FieldType.f32, FieldType.f32, FieldType.f32, FieldType.f32, FieldType.i32, FieldType.i32]
    (List.replicate 24 0) rfl).mpr (by decide)

/-- C3: against a parsed layout, every buffer whose total length does
not equal the layout's total length makes `decode_blob` fail with the
error that carries the buffer hex-rendered — in particular any empty
buffer against a non-empty layout — and this length mismatch is the
only error condition the decoder detects. -/
theorem decode_blob_length_mismatch_error
    (fmt : String) (fields : List FieldType) (blob : List Byte)
    (hfmt : parseFmt fmt = some fields) :
    (blob.length ≠ calcsize fields →
      decode_blob blob fmt = Except.error (DecodeError.valueError (hexlify blob))) ∧
    (fields ≠ [] →
      decode_blob [] fmt = Except.error (DecodeError.valueError (hexlify []))) ∧
    (∀ e, decode_blob blob fmt = Except.error e →
      blob.length ≠ calcsize fields ∧ e = DecodeError.valueError (hexlify blob)) := by
  have key : ∀ (bs : List Byte), bs.length ≠ calcsize fields →
      decode_blob bs fmt = Except.error (DecodeError.valueError (hexlify bs)) := by
    intro bs hne
    cases hu : unpackFields fields bs with
    | none => rw [decode_blob, struct_unpack, hfmt, Option.some_bind, hu]
    | some ws => exact absurd (unpackFields_length hu) hne
  refine ⟨key blob, ?_, ?_⟩
  · intro hfields
    refine key [] ?_
    have := calcsize_pos hfields
    simp
    omega
  · intro e he
    cases hu : unpackFields fields blob with
    | none =>
      constructor
      · intro hlen
        obtain ⟨vs, hvs⟩ := unpackFields_total hlen
        rw [hu] at hvs
        exact absurd hvs (by simp)
      · rw [decode_blob, struct_unpack, hfmt, Option.some_bind, hu] at he
        exact (Except.error.injEq .. ▸ he).symm
    | some ws =>
      rw [decode_blob, struct_unpack, hfmt, Option.some_bind, hu] at he
      exact absurd he (by simp)

theorem decode_blob_length_mismatch_error_witness :
    decode_blob [0, 1, 2] "=ffffii" =
      Except.error (DecodeError.valueError (hexlify [0, 1, 2])) :=
  (decode_blob_length_mismatch_error "=ffffii"
    [FieldType.f32, FieldType.f32, FieldType.f32, FieldType.f32, FieldType.i32, FieldType.i32]
    [0, 1, 2] rfl).1 (by decide)

/-- C4: packing a tuple of representable scalars per a layout,
segmenting the payload into 10-byte frames whose last frame carries the
stop sentinel as trailer (and no earlier frame does), then reassembling
with `combine_messages` and decoding with `decode_blob` under the same
layout, reproduces the original tuple exactly. -/
theorem sensor_reading_roundtrip
    (fmt : String) (fields : List FieldType) (values : List Value)
    (payload : List Byte) (frames : List (List Byte))
    (hfmt : parseFmt fmt = some fields)
    (hrep : ∀ v ∈ values, v.representable)
    (hpack : packFields fields values = some payload)
    (hne : frames ≠ [])
    (hlen : ∀ b ∈ frames, b.length = 10)
    (hmid : ∀ b ∈ frames.dropLast, b.getLast? ≠ some 1)
    (hlast : (frames.getLast hne).getLast? = some 1)
    (hseg : (frames.map payloadOf).flatten = payload) :
    ∃ buf, combine_messages frames = Except.ok buf ∧
      decode_blob buf fmt = Except.ok values := by
  have hdecomp := List.dropLast_append_getLast hne
  have hpre : ∀ b ∈ frames.dropLast, b ≠ [] ∧ b.getLast? ≠ some 1 := by
    intro b hb
    refine ⟨?_, hmid b hb⟩
    have hlb := hlen b (List.dropLast_subset frames hb)
    intro hnil
    rw [hnil] at hlb
    simp at hlb
  have hcomb := combine_messages_stops hlast frames.dropLast [] hpre
  rw [show frames.dropLast ++ frames.getLast hne :: [] = frames from hdecomp] at hcomb
  have hbuf : (frames.dropLast.map payloadOf).flatten ++ payloadOf (frames.getLast hne)
      = payload := by
    calc (frames.dropLast.map payloadOf).flatten ++ payloadOf (frames.getLast hne)
        = ((frames.dropLast ++ [frames.getLast hne]).map payloadOf).flatten := by
          rw [List.map_append, List.flatten_append]
          simp
      _ = (frames.map payloadOf).flatten := by rw [hdecomp]
      _ = payload := hseg
  refine ⟨payload, ?_, ?_⟩
  · rw [hcomb, hbuf]
  · rw [decode_blob, struct_unpack, hfmt, Option.some_bind,
      unpackFields_packFields hrep hpack]

theorem sensor_reading_roundtrip_witness :
    ∃ buf,
      combine_messages
          [[2, 0, 0, 128, 63, 0, 0, 0, 64, 0], [2, 0, 0, 64, 64, 0, 0, 128, 64, 0],
            [2, 7, 0, 0, 0, 255, 255, 255, 255, 1]] = Except.ok buf ∧
      decode_blob buf "=ffffii" =
        Except.ok [Value.f32 0 0 128 63, Value.f32 0 0 0 64, Value.f32 0 0 64 64,
          Value.f32 0 0 128 64, Value.i32 7, Value.i32 (-1)] := by
  exact sensor_reading_roundtrip "=ffffii"
    [FieldType.f32, FieldType.f32, FieldType.f32, FieldType.f32, FieldType.i32, FieldType.i32]
    [Value.f32 0 0 128 63, Value.f32 0 0 0 64, Value.f32 0 0 64 64,
      Value.f32 0 0 128 64, Value.i32 7, Value.i32 (-1)]
    [0, 0, 128, 63, 0, 0, 0, 64, 0, 0, 64, 64, 0, 0, 128, 64, 7, 0, 0, 0, 255, 255, 255, 255]
    [[2, 0, 0, 128, 63, 0, 0, 0, 64, 0], [2, 0, 0, 64, 64, 0, 0, 128, 64, 0],
      [2, 7, 0, 0, 0, 255, 255, 255, 255, 1]]
    rfl (by decide) (by decide) (by decide) (by decide) (by decide) (by decide) (by decide)

/-- C6: if the transport read in `Sensors.read` returns no bytes, the
cycle does nothing — no decode, no enqueue, no error, state unchanged;
otherwise the bytes are decoded with the poller's format and the tuple
is appended to the outbound queue. -/
theorem sensors_read_frame_effect (s : Sensors) :
    (s.device = [] → s.read = (s, none)) ∧
    (∀ values, s.device ≠ [] → decode_blob s.device s.fmt = Except.ok values →
      s.read = ({ s with device := [], out_queue := s.out_queue ++ [values] }, none)) := by
  constructor
  · intro h
    cases s with
    | mk device q f =>
      simp only [Sensors.mk.injEq] at h ⊢
      subst h
      rfl
  · intro values hne hok
    simp [Sensors.read, hok, List.isEmpty_eq_false.mpr hne]

theorem sensors_read_frame_effect_witness :
    (Sensors.init [] []).read = (Sensors.init [] [], none) ∧
    (Sensors.init (List.replicate 26 0) []).read =
      ({ device := [],
          out_queue := [] ++ [[Value.f32 0 0 0 0, Value.f32 0 0 0 0, Value.f32 0 0 0 0,
            Value.f32 0 0 0 0, Value.i32 0, Value.i32 0]],
          fmt := "=xffffiix" }, none) :=
  ⟨(sensors_read_frame_effect (Sensors.init [] [])).1 rfl,
    (sensors_read_frame_effect (Sensors.init (List.replicate 26 0) [])).2
      [Value.f32 0 0 0 0, Value.f32 0 0 0 0, Value.f32 0 0 0 0,
        Value.f32 0 0 0 0, Value.i32 0, Value.i32 0] (by decide) rfl⟩

/-- C7: when decoding fails, `Sensors.read` propagates that decode
error unchanged and leaves the outbound queue untouched — no default or
partial value is enqueued. -/
theorem sensors_read_error_propagates (s : Sensors) (e : DecodeError)
    (hne : s.device ≠ [])
    (herr : decode_blob s.device s.fmt = Except.error e) :
    s.read = ({ s with device := [] }, some e) ∧
    (s.read).1.out_queue = s.out_queue := by
  have h1 : s.read = ({ s with device := [] }, some e) := by
    simp [Sensors.read, herr, List.isEmpty_eq_false.mpr hne]
  exact ⟨h1, by rw [h1]⟩

theorem sensors_read_error_propagates_witness :
    (Sensors.init [0] []).read =
      ({ device := [], out_queue := [], fmt := "=xffffiix" },
        some (DecodeError.valueError "00")) ∧
    ((Sensors.init [0] []).read).1.out_queue = [] :=
  sensors_read_error_propagates (Sensors.init [0] [])
    (DecodeError.valueError "00") (by decide) rfl

/-- C8: a `Sensors` poller constructed without an explicit layout uses
the format `=xffffiix`: one leading pad byte, four float32 fields, two
int32 fields, one trailing pad byte, 26 bytes in total. -/
theorem sensors_default_layout (device : List Byte) (q : List (List Value)) :
    (Sensors.init device q).fmt = "=xffffiix" ∧
    parseFmt "=xffffiix" =
      some ([FieldType.pad] ++ List.replicate 4 FieldType.f32 ++
        List.replicate 2 FieldType.i32 ++ [FieldType.pad]) ∧
    calcsize ([FieldType.pad] ++ List.replicate 4 FieldType.f32 ++
      List.replicate 2 FieldType.i32 ++ [FieldType.pad]) = 26 :=
  ⟨rfl, by decide, by decide⟩

/-- C9: `combine_messages` reads the trailer as the chunk's last byte,
not the byte at fixed offset 9: every input whose frames up to and
including the first stop frame are non-empty returns without raising
(short frames silently contribute fewer than 8 payload bytes, as the
3-byte frame shows), while a zero-length frame before any stop frame
raises `IndexError`. -/
theorem combine_messages_trailer_is_last_byte :
    (∀ blobs : List (List Byte), (∀ b ∈ blobs, b ≠ []) →
      ∃ r, combine_messages blobs = Except.ok r) ∧
    (∀ (pre post : List (List Byte)) (stop : List Byte),
      (∀ b ∈ pre, b ≠ [] ∧ b.getLast? ≠ some 1) → stop.getLast? = some 1 →
      ∃ r, combine_messages (pre ++ stop :: post) = Except.ok r) ∧
    (∀ pre post : List (List Byte),
      (∀ b ∈ pre, b ≠ [] ∧ b.getLast? ≠ some 1) →
      combine_messages (pre ++ [] :: post) = Except.error UartError.indexError) ∧
    combine_messages [[2, 5, 1]] = Except.ok [5, 1] :=
  ⟨fun _ h => combine_messages_ok_of_nonempty h,
    fun pre post _stop hpre hstop => ⟨_, combine_messages_stops hstop pre post hpre⟩,
    fun pre post hpre => combine_messages_empty_chunk pre hpre post, rfl⟩

/-- C10: `decode_blob`'s own default format `=ffffii` (four float32 and
two int32, 24 bytes, no pads) differs from the poller's default
`=xffffiix` (26 bytes with pads): every 26-byte buffer fails to decode
under `decode_blob`'s default format yet decodes successfully under the
poller's format. -/
theorem decode_blob_default_format_differs :
    parseFmt "=ffffii" = some [FieldType.f32, FieldType.f32, FieldType.f32,
      FieldType.f32, FieldType.i32, FieldType.i32] ∧
    calcsize [FieldType.f32, FieldType.f32, FieldType.f32,
      FieldType.f32, FieldType.i32, FieldType.i32] = 24 ∧
    parseFmt "=xffffiix" ≠ parseFmt "=ffffii" ∧
    (∀ blob : List Byte, blob.length = 26 →
      decode_blob blob = Except.error (DecodeError.valueError (hexlify blob)) ∧
      ∃ vs, decode_blob blob "=xffffiix" = Except.ok vs) := by
  refine ⟨by decide, by decide, by decide, ?_⟩
  intro blob hlen
  constructor
  · exact @decode_blob_error_of_length_ne "=ffffii" [FieldType.f32, FieldType.f32,
      FieldType.f32, FieldType.f32, FieldType.i32, FieldType.i32] blob rfl
      (by rw [hlen]; decide)
  · exact @decode_blob_ok_of_length "=xffffiix" [FieldType.pad, FieldType.f32, FieldType.f32,
      FieldType.f32, FieldType.f32, FieldType.i32, FieldType.i32, FieldType.pad] blob rfl
      (by rw [hlen]; decide)

end StellarAI
